import Mathlib

/-!
Shallow embedding of the Edge profile manager (src/edge_profile_manager.py).

The Python class EdgeProfileManager keeps three persisted mappings
(profiles, history, batch_config) plus the in-memory active_drivers
mapping.  Python dicts are modelled as association lists that preserve
insertion order; assignment to an existing key keeps the key position,
assignment to a fresh key appends at the end, matching dict semantics.

External effects are modelled explicitly: the selenium driver is an
oracle, each call to webdriver.Edge consumes one Boolean from
launchOutcomes (true means the launch succeeds; an exhausted list means
success), and each driver.quit consumes one Boolean from closeOutcomes;
datetime.now is a logical clock that ticks at every call; each
time.sleep call is recorded in an event trace, tagged by its call site
(the per-profile sleep or the between-batches sleep).  File persistence
(_save_profiles, _save_history) rewrites whole files from the in-memory
state and is invisible at this level of the model.
-/

namespace EdgeProfile

/-- Python dict lookup on an insertion-ordered association list. -/
def assocGet {α : Type} : List (String × α) → String → Option α
  | [], _ => none
  | (k, v) :: rest, key => if k = key then some v else assocGet rest key

/-- Python dict assignment: replaces the value in place when the key is
present, appends a fresh key at the end. -/
def assocSet {α : Type} : List (String × α) → String → α → List (String × α)
  | [], key, v => [(key, v)]
  | (k, w) :: rest, key, v =>
    if k = key then (key, v) :: rest else (k, w) :: assocSet rest key v

/-- Python del on a dict key.  Dict keys are unique, so removing every
entry with the key agrees with removing the single one. -/
def assocErase {α : Type} : List (String × α) → String → List (String × α)
  | [], _ => []
  | (k, v) :: rest, key =>
    if k = key then assocErase rest key else (k, v) :: assocErase rest key

/-- Stored profile record as written by add_profile. -/
structure ProfileData where
  path : String
  preferredLanguage : Option String
  createdAt : Nat
deriving DecidableEq

/-- History record as written by open_profile: last_opened timestamp and
open_count. -/
structure HistoryEntry where
  lastOpened : Nat
  openCount : Nat
deriving DecidableEq

/-- One recorded time.sleep call.  sleepProfile is the sleep after a
successful open (delay_between_profiles in open_profiles_in_batches,
delay_between in open_multiple_profiles); sleepBatch is the sleep
between batches. -/
inductive Event where
  | sleepProfile (seconds : Nat)
  | sleepBatch (seconds : Nat)
deriving DecidableEq

/-- The manager state: the three relevant mappings, the driver oracle
lists, the logical clock (datetime.now) and a fresh-handle counter for
driver instances. -/
structure ManagerState where
  profiles : List (String × ProfileData)
  history : List (String × HistoryEntry)
  activeDrivers : List (String × Nat)
  launchOutcomes : List Bool
  closeOutcomes : List Bool
  clock : Nat
  nextHandle : Nat
deriving DecidableEq

/-- Consume the next oracle outcome; an exhausted oracle means success. -/
def takeOutcome : List Bool → Bool × List Bool
  | [] => (true, [])
  | b :: rest => (b, rest)

instance {ε α : Type} [DecidableEq ε] [DecidableEq α] :
    DecidableEq (Except ε α) := fun x y =>
  match x, y with
  | Except.ok a, Except.ok b =>
    if h : a = b then isTrue (by rw [h])
    else isFalse (by intro hc; cases hc; exact h rfl)
  | Except.ok _, Except.error _ => isFalse (by intro hc; cases hc)
  | Except.error _, Except.ok _ => isFalse (by intro hc; cases hc)
  | Except.error e, Except.error f =>
    if h : e = f then isTrue (by rw [h])
    else isFalse (by intro hc; cases hc; exact h rfl)

/-- Errors raised by the Python code: ValueError for an unregistered
profile name, WebDriverException re-raised from a failed launch, and the
ValueError raised by range when batch_size is zero. -/
inductive OpenError where
  | profileNotFound (name : String)
  | launchFailed (name : String)
  | zeroBatchStep
deriving DecidableEq

/-- The str(e) text stored in a failed batch entry. -/
def errorMessage : OpenError → String
  | OpenError.profileNotFound name => "Profile " ++ name ++ " does not exist"
  | OpenError.launchFailed name => "WebDriverException opening " ++ name
  | OpenError.zeroBatchStep => "range arg 3 must not be zero"

/-- Value of a decimal digit character. -/
def digitVal? (c : Char) : Option Nat :=
  if '0' ≤ c ∧ c ≤ '9' then some (c.toNat - Char.toNat '0') else none

/-- Accumulator loop for natOfDigits. -/
def natOfDigitsGo : List Char → Nat → Option Nat
  | [], acc => some acc
  | c :: rest, acc =>
    match digitVal? c with
    | some d => natOfDigitsGo rest (acc * 10 + d)
    | none => none

/-- Python int(tok) restricted to plain decimal digit strings.  Tokens
with a sign, underscores or embedded whitespace are modelled as parse
failures; such tokens never arise from paths this manager writes. -/
def natOfDigits : List Char → Option Nat
  | [] => none
  | cs => natOfDigitsGo cs 0

/-- Python path.split on a single space, on the character list; keeps
empty fields, as Python does for an explicit separator. -/
def splitOnSpace : List Char → List (List Char)
  | [] => [[]]
  | c :: rest =>
    let r := splitOnSpace rest
    if c = ' ' then [] :: r
    else
      match r with
      | [] => [[c]]
      | h :: t => (c :: h) :: t

/-- Boolean list-prefix test used to model Python str.startswith. -/
def startsWithChars : List Char → List Char → Bool
  | [], _ => true
  | _ :: _, [] => false
  | p :: ps, c :: cs => if p = c then startsWithChars ps cs else false

/-- The number add_profile extracts from one stored path: the path must
start with the literal text Profile plus a space, and the second
space-separated field must parse as an int. -/
def pathNumber (path : String) : Option Nat :=
  if startsWithChars ( "Profile ".toList) path.toList then
    match (splitOnSpace path.toList).get? 1 with
    | some tok => natOfDigits tok
    | none => none
  else none

/-- The auto-path number computed by add_profile when no path is given:
collect the parsed numbers over all stored paths, then max plus one,
defaulting to 1 when no path matches. -/
def nextProfileNumber (profiles : List (String × ProfileData)) : Nat :=
  let numbers := profiles.filterMap (fun p => pathNumber p.2.path)
  match numbers with
  | [] => 1
  | x :: xs => xs.foldl Nat.max x + 1

/-- Embedding of EdgeProfileManager.add_profile.  Returns the Python
boolean result together with the new state. -/
def add_profile (s : ManagerState) (profile_name : String)
    (profile_path : Option String) (preferred_language : Option String) :
    Bool × ManagerState :=
  if (assocGet s.profiles profile_name).isSome then (false, s)
  else
    let path :=
      match profile_path with
      | some p => p
      | none => "Profile " ++ Nat.repr (nextProfileNumber s.profiles)
    (true,
      { s with
        profiles := assocSet s.profiles profile_name
          { path := path, preferredLanguage := preferred_language,
            createdAt := s.clock },
        clock := s.clock + 1 })

/-- Embedding of EdgeProfileManager.remove_profile: False when the name
is absent; otherwise the profile entry is deleted and then any history
entry for the same name is deleted. -/
def remove_profile (s : ManagerState) (profile_name : String) :
    Bool × ManagerState :=
  if (assocGet s.profiles profile_name).isNone then (false, s)
  else
    let s1 := { s with profiles := assocErase s.profiles profile_name }
    let s2 :=
      if (assocGet s1.history profile_name).isSome then
        { s1 with history := assocErase s1.history profile_name }
      else s1
    (true, s2)

/-- Embedding of EdgeProfileManager.open_profile.  An unregistered name
raises ValueError; otherwise the driver launch consumes one oracle
outcome.  On success the driver handle is stored in active_drivers and
the history entry is rewritten with the current clock and the previous
open_count (default 0) plus one; on launch failure the
WebDriverException propagates and nothing but the oracle changes. -/
def open_profile (s : ManagerState) (profile_name : String) :
    Except OpenError Nat × ManagerState :=
  match assocGet s.profiles profile_name with
  | none => (Except.error (OpenError.profileNotFound profile_name), s)
  | some _ =>
    let res := takeOutcome s.launchOutcomes
    if res.1 then
      let handle := s.nextHandle
      let newCount :=
        (match assocGet s.history profile_name with
         | some e => e.openCount
         | none => 0) + 1
      (Except.ok handle,
        { s with
          launchOutcomes := res.2,
          nextHandle := s.nextHandle + 1,
          activeDrivers := assocSet s.activeDrivers profile_name handle,
          history := assocSet s.history profile_name
            { lastOpened := s.clock, openCount := newCount },
          clock := s.clock + 1 })
    else
      (Except.error (OpenError.launchFailed profile_name),
        { s with launchOutcomes := res.2 })

/-- Loop of open_multiple_profiles over the remaining names, carrying
the drivers mapping and the sleep trace accumulated so far. -/
def open_multiple_go (s : ManagerState) (names : List String)
    (delay_between : Nat) (skip_missing : Bool)
    (drivers : List (String × Nat)) (trace : List Event) :
    Except OpenError (List (String × Nat)) × ManagerState × List Event :=
  match names with
  | [] => (Except.ok drivers, s, trace)
  | name :: rest =>
    if (assocGet s.profiles name).isNone then
      if skip_missing then
        open_multiple_go s rest delay_between skip_missing drivers trace
      else
        (Except.error (OpenError.profileNotFound name), s, trace)
    else
      match open_profile s name with
      | (Except.ok handle, s1) =>
        open_multiple_go s1 rest delay_between skip_missing
          (assocSet drivers name handle)
          (trace ++ [Event.sleepProfile delay_between])
      | (Except.error _, s1) =>
        open_multiple_go s1 rest delay_between skip_missing drivers trace

/-- Embedding of EdgeProfileManager.open_multiple_profiles.  The sleep
runs inside the try block right after a successful open, so it fires
after every success (the final item included) and is skipped when the
open raised; a missing name is skipped or, with skip_missing false,
raises ValueError, discarding the drivers mapping built so far. -/
def open_multiple_profiles (s : ManagerState) (profile_names : List String)
    (delay_between : Nat) (skip_missing : Bool) :
    Except OpenError (List (String × Nat)) × ManagerState × List Event :=
  open_multiple_go s profile_names delay_between skip_missing [] []

/-- The classified result of open_profiles_in_batches. -/
structure BatchResults where
  successful : List String
  failed : List (String × String)
  skipped : List String
deriving DecidableEq

/-- Inner loop of open_profiles_in_batches over one batch. -/
def runBatchProfiles (s : ManagerState) (names : List String)
    (skip_missing : Bool) (profile_delay : Nat)
    (results : BatchResults) (trace : List Event) :
    Except OpenError BatchResults × ManagerState × List Event :=
  match names with
  | [] => (Except.ok results, s, trace)
  | name :: rest =>
    if (assocGet s.profiles name).isNone then
      if skip_missing then
        runBatchProfiles s rest skip_missing profile_delay
          { results with skipped := results.skipped ++ [name] } trace
      else
        (Except.error (OpenError.profileNotFound name), s, trace)
    else
      match open_profile s name with
      | (Except.ok _, s1) =>
        runBatchProfiles s1 rest skip_missing profile_delay
          { results with successful := results.successful ++ [name] }
          (trace ++ [Event.sleepProfile profile_delay])
      | (Except.error e, s1) =>
        runBatchProfiles s1 rest skip_missing profile_delay
          { results with failed := results.failed ++ [(name, errorMessage e)] }
          trace

/-- Outer loop of open_profiles_in_batches over the batches; after every
batch that is not the last one it sleeps for the batch delay. -/
def runBatches (s : ManagerState) (batches : List (List String))
    (skip_missing : Bool) (profile_delay : Nat) (batch_delay : Nat)
    (results : BatchResults) (trace : List Event) :
    Except OpenError BatchResults × ManagerState × List Event :=
  match batches with
  | [] => (Except.ok results, s, trace)
  | batch :: rest =>
    match runBatchProfiles s batch skip_missing profile_delay results trace with
    | (Except.error e, s1, trace1) => (Except.error e, s1, trace1)
    | (Except.ok results1, s1, trace1) =>
      let trace2 :=
        match rest with
        | [] => trace1
        | _ :: _ => trace1 ++ [Event.sleepBatch batch_delay]
      runBatches s1 rest skip_missing profile_delay batch_delay results1 trace2

/-- Fuel-indexed chunking loop; the fuel starts at the list length, which
is enough whenever the chunk size is positive. -/
def chunkGo : Nat → List String → Nat → List (List String)
  | 0, _, _ => []
  | _, [], _ => []
  | fuel + 1, l@(_ :: _), n => l.take n :: chunkGo fuel (l.drop n) n

/-- The batch partition computed by the list comprehension in
open_profiles_in_batches: consecutive slices of length batch_size. -/
def chunkList (l : List String) (n : Nat) : List (List String) :=
  chunkGo l.length l n

/-- Embedding of EdgeProfileManager.open_profiles_in_batches.  A zero
batch_size reproduces the ValueError range raises on a zero step. -/
def open_profiles_in_batches (s : ManagerState) (profile_names : List String)
    (batch_size : Nat) (delay_between_profiles : Nat)
    (delay_between_batches : Nat) (skip_missing : Bool) :
    Except OpenError BatchResults × ManagerState × List Event :=
  if batch_size = 0 then (Except.error OpenError.zeroBatchStep, s, [])
  else
    runBatches s (chunkList profile_names batch_size) skip_missing
      delay_between_profiles delay_between_batches
      { successful := [], failed := [], skipped := [] } []

/-- Loop of close_all_profiles over the snapshot of active_drivers taken
at entry; each quit consumes one close outcome, a success removes the
entry and increments the count, a failure is logged and skipped. -/
def close_all_go (s : ManagerState) (items : List (String × Nat))
    (count : Nat) : Nat × ManagerState :=
  match items with
  | [] => (count, s)
  | (name, _) :: rest =>
    let res := takeOutcome s.closeOutcomes
    if res.1 then
      close_all_go
        { s with
          closeOutcomes := res.2,
          activeDrivers := assocErase s.activeDrivers name }
        rest (count + 1)
    else
      close_all_go { s with closeOutcomes := res.2 } rest count

/-- Embedding of EdgeProfileManager.close_all_profiles.  The function is
total: a failed quit is caught, logged and never re-raised. -/
def close_all_profiles (s : ManagerState) : Nat × ManagerState :=
  close_all_go s s.activeDrivers 0

/-- Harness for the history claims: a client loop that calls
open_profile once per listed name, swallowing failures, and records the
clock value of every successful open in call order. -/
def runOpensTrace (s : ManagerState) (names : List String) :
    ManagerState × List (String × Nat) :=
  match names with
  | [] => (s, [])
  | n :: rest =>
    match open_profile s n with
    | (Except.ok _, s1) =>
      let r := runOpensTrace s1 rest
      (r.1, (n, s.clock) :: r.2)
    | (Except.error _, s1) => runOpensTrace s1 rest

/-- The open_count stored in an optional history entry, default 0. -/
def countD (o : Option HistoryEntry) : Nat :=
  match o with
  | some e => e.openCount
  | none => 0

/-- Recognizer for the per-profile sleep events in a trace. -/
def isProfileSleep : Event → Bool
  | Event.sleepProfile _ => true
  | Event.sleepBatch _ => false

/-- Recognizer for the between-batches sleep events in a trace. -/
def isBatchSleep : Event → Bool
  | Event.sleepProfile _ => false
  | Event.sleepBatch _ => true

/-- The close outcomes actually consulted for a run over n sessions: the
oracle list truncated or padded with the default success. -/
def padOutcomes : List Bool → Nat → List Bool
  | _, 0 => []
  | [], n + 1 => true :: padOutcomes [] n
  | b :: rest, n + 1 => b :: padOutcomes rest n

/-- A registered profile record used by the concrete test states. -/
def regData : ProfileData :=
  { path := "Work Path", preferredLanguage := none, createdAt := 0 }

/-- Concrete state with seven registered profiles and no other data. -/
def stSeven : ManagerState :=
  { profiles := [( "p1", regData), ( "p2", regData), ( "p3", regData),
                 ( "p4", regData), ( "p5", regData), ( "p6", regData),
                 ( "p7", regData)],
    history := [], activeDrivers := [], launchOutcomes := [],
    closeOutcomes := [], clock := 0, nextHandle := 0 }

/-- Concrete state with two registered profiles a and b. -/
def stAB : ManagerState :=
  { profiles := [( "a", regData), ( "b", regData)], history := [],
    activeDrivers := [], launchOutcomes := [], closeOutcomes := [],
    clock := 0, nextHandle := 0 }

/-- Concrete state like stAB whose first driver launch fails. -/
def stABFirstFails : ManagerState :=
  { stAB with launchOutcomes := [false] }

/-- Concrete empty state. -/
def stEmpty : ManagerState :=
  { profiles := [], history := [], activeDrivers := [],
    launchOutcomes := [], closeOutcomes := [], clock := 0, nextHandle := 0 }

/-- Concrete state whose stored paths are Profile 2 and Profile 5. -/
def stGapPaths : ManagerState :=
  { profiles :=
      [( "x", { path := "Profile 2", preferredLanguage := none, createdAt := 0 }),
       ( "y", { path := "Profile 5", preferredLanguage := none, createdAt := 0 })],
    history := [], activeDrivers := [], launchOutcomes := [],
    closeOutcomes := [], clock := 0, nextHandle := 0 }

/-- Concrete state with three active sessions in which the second quit
fails. -/
def stThreeActive : ManagerState :=
  { profiles := [( "s1", regData), ( "s2", regData), ( "s3", regData)],
    history := [], activeDrivers := [( "s1", 0), ( "s2", 1), ( "s3", 2)],
    launchOutcomes := [], closeOutcomes := [true, false, true],
    clock := 3, nextHandle := 3 }

/-- Concrete state with registered profiles W and V for the history
round-trip scenario. -/
def stWV : ManagerState :=
  { profiles := [( "W", regData), ( "V", regData)], history := [],
    activeDrivers := [], launchOutcomes := [], closeOutcomes := [],
    clock := 0, nextHandle := 0 }

/-- Concrete state reached from stAB after both a and b were opened
once, in that order, with fresh handles 0 and 1. -/
def stABAfterBatch : ManagerState :=
  { profiles := [( "a", regData), ( "b", regData)],
    history := [( "a", { lastOpened := 0, openCount := 1 }),
                ( "b", { lastOpened := 1, openCount := 1 })],
    activeDrivers := [( "a", 0), ( "b", 1)],
    launchOutcomes := [], closeOutcomes := [], clock := 2, nextHandle := 2 }

/-! Association-list lemmas, shared by several claims. -/

theorem assocGet_assocSet_self {α : Type} (m : List (String × α))
    (k : String) (v : α) : assocGet (assocSet m k v) k = some v := by
  induction m with
  | nil => simp [assocSet, assocGet]
  | cons p rest ih =>
    by_cases h : p.1 = k
    · simp [assocSet, assocGet, h]
    · simp [assocSet, assocGet, h, ih]

theorem assocGet_assocSet_ne {α : Type} (m : List (String × α))
    (k q : String) (v : α) (h : q ≠ k) :
    assocGet (assocSet m k v) q = assocGet m q := by
  induction m with
  | nil => simp [assocSet, assocGet, Ne.symm h]
  | cons p rest ih =>
    by_cases hk : p.1 = k
    · simp [assocSet, assocGet, hk, Ne.symm h]
    · by_cases hq : p.1 = q <;>
        simp [assocSet, assocGet, hk, hq, h, Ne.symm h, ih]

theorem assocSet_absent {α : Type} (m : List (String × α)) (k : String)
    (v : α) (h : assocGet m k = none) : assocSet m k v = m ++ [(k, v)] := by
  induction m with
  | nil => simp [assocSet]
  | cons p rest ih =>
    by_cases hk : p.1 = k
    · simp [assocGet, hk] at h
    · simp [assocGet, hk] at h
      simp [assocSet, hk, ih h]

theorem assocErase_absent {α : Type} (m : List (String × α)) (k : String)
    (h : assocGet m k = none) : assocErase m k = m := by
  induction m with
  | nil => simp [assocErase]
  | cons p rest ih =>
    by_cases hk : p.1 = k
    · simp [assocGet, hk] at h
    · simp [assocGet, hk] at h
      simp [assocErase, hk, ih h]

theorem assocGet_assocErase_self {α : Type} (m : List (String × α))
    (k : String) : assocGet (assocErase m k) k = none := by
  induction m with
  | nil => simp [assocErase, assocGet]
  | cons p rest ih =>
    by_cases hk : p.1 = k
    · simp [assocErase, hk, ih]
    · simp [assocErase, assocGet, hk, ih]

theorem assocErase_append {α : Type} (m l : List (String × α)) (k : String) :
    assocErase (m ++ l) k = assocErase m k ++ assocErase l k := by
  induction m with
  | nil => simp [assocErase]
  | cons p rest ih =>
    by_cases hk : p.1 = k <;> simp [assocErase, hk, ih]

theorem assocSet_absent_length {α : Type} (m : List (String × α))
    (k : String) (v : α) (h : assocGet m k = none) :
    (assocSet m k v).length = m.length + 1 := by
  rw [assocSet_absent m k v h]
  simp

/-! Facts about open_profile, shared by the launch-driven claims. -/

theorem open_profile_profiles (s : ManagerState) (n : String) :
    (open_profile s n).2.profiles = s.profiles := by
  cases hg : assocGet s.profiles n with
  | none => simp [open_profile, hg]
  | some d =>
    cases hl : s.launchOutcomes with
    | nil => simp [open_profile, hg, hl, takeOutcome]
    | cons b rest => cases b <;> simp [open_profile, hg, hl, takeOutcome]

theorem open_profile_error_state (s : ManagerState) (n : String)
    (e : OpenError) (s' : ManagerState)
    (h : open_profile s n = (Except.error e, s')) :
    s'.history = s.history ∧ s'.activeDrivers = s.activeDrivers := by
  cases hg : assocGet s.profiles n with
  | none =>
    simp [open_profile, hg] at h
    rw [← h.2]
    exact ⟨rfl, rfl⟩
  | some d =>
    cases hl : s.launchOutcomes with
    | nil => simp [open_profile, hg, hl, takeOutcome] at h
    | cons b rest =>
      cases b with
      | true => simp [open_profile, hg, hl, takeOutcome] at h
      | false =>
        simp [open_profile, hg, hl, takeOutcome] at h
        rw [← h.2]
        exact ⟨rfl, rfl⟩

theorem open_profile_ok_state (s : ManagerState) (n : String)
    (hd : Nat) (s' : ManagerState)
    (h : open_profile s n = (Except.ok hd, s')) :
    s'.history = assocSet s.history n
      { lastOpened := s.clock, openCount := countD (assocGet s.history n) + 1 } ∧
    s'.activeDrivers = assocSet s.activeDrivers n hd ∧
    s'.clock = s.clock + 1 := by
  cases hg : assocGet s.profiles n with
  | none => simp [open_profile, hg] at h
  | some d =>
    cases hl : s.launchOutcomes with
    | nil =>
      simp [open_profile, hg, hl, takeOutcome] at h
      obtain ⟨h1, h2⟩ := h
      rw [← h2, ← h1]
      refine ⟨?_, rfl, rfl⟩
      simp [countD]
    | cons b rest =>
      cases b with
      | true =>
        simp [open_profile, hg, hl, takeOutcome] at h
        obtain ⟨h1, h2⟩ := h
        rw [← h2, ← h1]
        refine ⟨?_, rfl, rfl⟩
        simp [countD]
      | false => simp [open_profile, hg, hl, takeOutcome] at h

theorem open_profile_ok_history_self (s : ManagerState) (n : String)
    (hd : Nat) (s' : ManagerState)
    (h : open_profile s n = (Except.ok hd, s')) :
    assocGet s'.history n =
      some { lastOpened := s.clock,
             openCount := countD (assocGet s.history n) + 1 } := by
  rw [(open_profile_ok_state s n hd s' h).1]
  exact assocGet_assocSet_self _ _ _

theorem open_profile_ok_history_other (s : ManagerState) (n : String)
    (hd : Nat) (s' : ManagerState) (m : String)
    (h : open_profile s n = (Except.ok hd, s')) (hm : m ≠ n) :
    assocGet s'.history m = assocGet s.history m := by
  rw [(open_profile_ok_state s n hd s' h).1]
  exact assocGet_assocSet_ne _ _ _ _ hm

/-! Lemmas about the batch partition. -/

theorem chunkGo_flatten (fuel : Nat) : ∀ (l : List String) (n : Nat),
    0 < n → l.length ≤ fuel → (chunkGo fuel l n).flatten = l := by
  induction fuel with
  | zero =>
    intro l n hn hf
    have hl : l = [] := List.eq_nil_of_length_eq_zero (Nat.le_zero.mp hf)
    subst hl
    simp [chunkGo]
  | succ f ih =>
    intro l n hn hf
    cases l with
    | nil => simp [chunkGo]
    | cons x xs =>
      have hd : ((x :: xs).drop n).length ≤ f := by
        simp only [List.length_drop, List.length_cons]
        simp only [List.length_cons] at hf
        omega
      simp only [chunkGo, List.flatten_cons]
      rw [ih _ n hn hd, List.take_append_drop]

theorem chunkGo_length_le (fuel : Nat) : ∀ (l : List String) (n : Nat),
    ∀ c ∈ chunkGo fuel l n, c.length ≤ n := by
  induction fuel with
  | zero =>
    intro l n c hc
    simp [chunkGo] at hc
  | succ f ih =>
    intro l n c hc
    cases l with
    | nil => simp [chunkGo] at hc
    | cons x xs =>
      simp only [chunkGo, List.mem_cons] at hc
      cases hc with
      | inl h =>
        subst h
        rw [List.length_take]
        exact Nat.min_le_left _ _
      | inr h => exact ih _ n c h

theorem chunkGo_getD_length (fuel : Nat) : ∀ (l : List String) (n : Nat),
    0 < n → l.length ≤ fuel → ∀ i, i + 1 < (chunkGo fuel l n).length →
    ((chunkGo fuel l n).getD i []).length = n := by
  induction fuel with
  | zero =>
    intro l n hn hf i hi
    simp [chunkGo] at hi
  | succ f ih =>
    intro l n hn hf i hi
    cases l with
    | nil => simp [chunkGo] at hi
    | cons x xs =>
      cases i with
      | zero =>
        have hrest : chunkGo f ((x :: xs).drop n) n ≠ [] := by
          intro hnil
          simp only [chunkGo, hnil, List.length_cons, List.length_nil] at hi
          omega
        have hdne : (x :: xs).drop n ≠ [] := by
          intro hdn
          rw [hdn] at hrest
          cases f <;> simp [chunkGo] at hrest
        have hlen : n < (x :: xs).length := by
          by_contra hle
          push_neg at hle
          exact hdne (List.drop_eq_nil_of_le hle)
        simp only [chunkGo, List.getD_cons_zero, List.length_take]
        omega
      | succ j =>
        have hd : ((x :: xs).drop n).length ≤ f := by
          simp only [List.length_drop, List.length_cons]
          simp only [List.length_cons] at hf
          omega
        simp only [chunkGo, List.length_cons] at hi
        simp only [chunkGo, List.getD_cons_succ]
        exact ih _ n hn hd j (by omega)

theorem chunkList_flatten (l : List String) (n : Nat) (hn : 0 < n) :
    (chunkList l n).flatten = l :=
  chunkGo_flatten l.length l n hn (Nat.le_refl _)

theorem chunkList_length_le (l : List String) (n : Nat) :
    ∀ c ∈ chunkList l n, c.length ≤ n :=
  chunkGo_length_le l.length l n

theorem chunkList_getD_length (l : List String) (n : Nat) (hn : 0 < n) :
    ∀ i, i + 1 < (chunkList l n).length →
    ((chunkList l n).getD i []).length = n :=
  chunkGo_getD_length l.length l n hn (Nat.le_refl _)

/-! Trace counting for the batch loops: one per-profile sleep fires per
successful open, none for failures or skips. -/

theorem runBatchProfiles_countP (names : List String) :
    ∀ (s : ManagerState) (sm : Bool) (dp : Nat) (results : BatchResults)
      (trace : List Event) (r : BatchResults) (s' : ManagerState)
      (tr : List Event),
    runBatchProfiles s names sm dp results trace = (Except.ok r, s', tr) →
    tr.countP isProfileSleep + results.successful.length
      = trace.countP isProfileSleep + r.successful.length := by
  induction names with
  | nil =>
    intro s sm dp results trace r s' tr h
    simp only [runBatchProfiles, Prod.mk.injEq] at h
    obtain ⟨h1, _, h3⟩ := h
    cases h1
    rw [h3]
  | cons name rest ih =>
    intro s sm dp results trace r s' tr h
    simp only [runBatchProfiles] at h
    split at h
    · split at h
      · have := ih _ _ _ _ _ _ _ _ h
        simpa using this
      · simp at h
    · split at h
      next hd s1 heq =>
        have := ih _ _ _ _ _ _ _ _ h
        simp only [List.countP_append, List.length_append] at this ⊢
        simp [isProfileSleep, List.countP_cons] at this
        omega
      next e s1 heq =>
        have := ih _ _ _ _ _ _ _ _ h
        simpa using this

theorem runBatches_countP (batches : List (List String)) :
    ∀ (s : ManagerState) (sm : Bool) (dp db : Nat) (results : BatchResults)
      (trace : List Event) (r : BatchResults) (s' : ManagerState)
      (tr : List Event),
    runBatches s batches sm dp db results trace = (Except.ok r, s', tr) →
    tr.countP isProfileSleep + results.successful.length
      = trace.countP isProfileSleep + r.successful.length := by
  induction batches with
  | nil =>
    intro s sm dp db results trace r s' tr h
    simp only [runBatches, Prod.mk.injEq] at h
    obtain ⟨h1, _, h3⟩ := h
    cases h1
    rw [h3]
  | cons batch rest ih =>
    intro s sm dp db results trace r s' tr h
    simp only [runBatches] at h
    split at h
    next e s1 tr1 heq => simp at h
    next results1 s1 tr1 heq =>
      have h1 := runBatchProfiles_countP batch _ _ _ _ _ _ _ _ heq
      cases rest with
      | nil =>
        have h2 := ih _ _ _ _ _ _ _ _ _ h
        simp only [List.countP_nil] at h2 ⊢
        omega
      | cons b bs =>
        have h2 := ih _ _ _ _ _ _ _ _ _ h
        simp [List.countP_append, List.countP_cons, isProfileSleep] at h2
        omega

/-- First-match behaviour of find? on an appended list. -/
theorem find?_append_first {α : Type} (p : α → Bool) (l1 l2 : List α) :
    (l1 ++ l2).find? p =
      match l1.find? p with
      | some a => some a
      | none => l2.find? p := by
  induction l1 with
  | nil => simp
  | cons a t ih =>
    by_cases hp : p a = true
    · rw [List.cons_append, List.find?_cons_of_pos _ hp,
        List.find?_cons_of_pos _ hp]
    · rw [List.cons_append, List.find?_cons_of_neg _ hp,
        List.find?_cons_of_neg _ hp, ih]

/-! With skip_missing true the batch loops always return ok, the skipped
bucket collects exactly the unregistered names in input order, and the
registered-profile mapping never changes. -/

theorem runBatchProfiles_true_total (names : List String) :
    ∀ (s : ManagerState) (dp : Nat) (results : BatchResults)
      (trace : List Event), ∃ r s' tr,
    runBatchProfiles s names true dp results trace = (Except.ok r, s', tr) ∧
    r.skipped = results.skipped ++
      names.filter (fun n => (assocGet s.profiles n).isNone) ∧
    s'.profiles = s.profiles := by
  induction names with
  | nil =>
    intro s dp results trace
    exact ⟨results, s, trace, rfl, by simp [runBatchProfiles], rfl⟩
  | cons name rest ih =>
    intro s dp results trace
    by_cases hg : (assocGet s.profiles name).isNone = true
    · obtain ⟨r, s', tr, heq, hsk, hpr⟩ :=
        ih s dp { results with skipped := results.skipped ++ [name] } trace
      have hstep : runBatchProfiles s (name :: rest) true dp results trace
          = runBatchProfiles s rest true dp
            { results with skipped := results.skipped ++ [name] } trace := by
        simp [runBatchProfiles, hg]
      refine ⟨r, s', tr, by rw [hstep]; exact heq, ?_, hpr⟩
      rw [hsk]
      simp [List.filter_cons, hg]
    · rw [Bool.not_eq_true] at hg
      rcases ho : open_profile s name with ⟨res, s1⟩
      have hpro : s1.profiles = s.profiles := by
        have h := open_profile_profiles s name
        rw [ho] at h
        exact h
      cases res with
      | ok hd =>
        obtain ⟨r, s', tr, heq, hsk, hpr⟩ :=
          ih s1 dp { results with successful := results.successful ++ [name] }
            (trace ++ [Event.sleepProfile dp])
        have hstep : runBatchProfiles s (name :: rest) true dp results trace
            = runBatchProfiles s1 rest true dp
              { results with successful := results.successful ++ [name] }
              (trace ++ [Event.sleepProfile dp]) := by
          simp [runBatchProfiles, hg, ho]
        refine ⟨r, s', tr, by rw [hstep]; exact heq, ?_, by rw [hpr, hpro]⟩
        rw [hsk, hpro]
        simp [List.filter_cons, hg]
      | error e =>
        obtain ⟨r, s', tr, heq, hsk, hpr⟩ :=
          ih s1 dp
            { results with failed := results.failed ++ [(name, errorMessage e)] }
            trace
        have hstep : runBatchProfiles s (name :: rest) true dp results trace
            = runBatchProfiles s1 rest true dp
              { results with failed := results.failed ++ [(name, errorMessage e)] }
              trace := by
          simp [runBatchProfiles, hg, ho]
        refine ⟨r, s', tr, by rw [hstep]; exact heq, ?_, by rw [hpr, hpro]⟩
        rw [hsk, hpro]
        simp [List.filter_cons, hg]

theorem runBatches_true_total (batches : List (List String)) :
    ∀ (s : ManagerState) (dp db : Nat) (results : BatchResults)
      (trace : List Event), ∃ r s' tr,
    runBatches s batches true dp db results trace = (Except.ok r, s', tr) ∧
    r.skipped = results.skipped ++
      batches.flatten.filter (fun n => (assocGet s.profiles n).isNone) ∧
    s'.profiles = s.profiles := by
  induction batches with
  | nil =>
    intro s dp db results trace
    exact ⟨results, s, trace, rfl, by simp [runBatches], rfl⟩
  | cons batch rest ih =>
    intro s dp db results trace
    obtain ⟨r1, s1, tr1, heq1, hsk1, hpr1⟩ :=
      runBatchProfiles_true_total batch s dp results trace
    cases rest with
    | nil =>
      refine ⟨r1, s1, tr1, ?_, ?_, hpr1⟩
      · simp [runBatches, heq1]
      · rw [hsk1]
        simp
    | cons b bs =>
      obtain ⟨r, s', tr, heq, hsk, hpr⟩ :=
        ih s1 dp db r1 (tr1 ++ [Event.sleepBatch db])
      refine ⟨r, s', tr, ?_, ?_, by rw [hpr, hpr1]⟩
      · simp only [runBatches, heq1]
        exact heq
      · rw [hsk, hsk1, hpr1]
        simp [List.filter_append]

/-! With skip_missing false the loops abort at the first unregistered
name with the ValueError carrying that name. -/

theorem runBatchProfiles_abort (names : List String) :
    ∀ (s : ManagerState) (dp : Nat) (results : BatchResults)
      (trace : List Event) (bad : String),
    names.find? (fun n => (assocGet s.profiles n).isNone) = some bad →
    (runBatchProfiles s names false dp results trace).1
      = Except.error (OpenError.profileNotFound bad) := by
  induction names with
  | nil =>
    intro s dp results trace bad hfind
    simp at hfind
  | cons name rest ih =>
    intro s dp results trace bad hfind
    by_cases hg : (assocGet s.profiles name).isNone = true
    · rw [@List.find?_cons_of_pos String
        (fun n => (assocGet s.profiles n).isNone) name rest hg] at hfind
      cases hfind
      simp [runBatchProfiles, hg]
    · rw [@List.find?_cons_of_neg String
        (fun n => (assocGet s.profiles n).isNone) name rest hg] at hfind
      rw [Bool.not_eq_true] at hg
      rcases ho : open_profile s name with ⟨res, s1⟩
      have hpro : s1.profiles = s.profiles := by
        have h := open_profile_profiles s name
        rw [ho] at h
        exact h
      have hfind1 :
          rest.find? (fun n => (assocGet s1.profiles n).isNone) = some bad := by
        rw [hpro]
        exact hfind
      cases res with
      | ok hd =>
        have hstep : runBatchProfiles s (name :: rest) false dp results trace
            = runBatchProfiles s1 rest false dp
              { results with successful := results.successful ++ [name] }
              (trace ++ [Event.sleepProfile dp]) := by
          simp [runBatchProfiles, hg, ho]
        rw [hstep]
        exact ih s1 dp _ _ bad hfind1
      | error e =>
        have hstep : runBatchProfiles s (name :: rest) false dp results trace
            = runBatchProfiles s1 rest false dp
              { results with failed := results.failed ++ [(name, errorMessage e)] }
              trace := by
          simp [runBatchProfiles, hg, ho]
        rw [hstep]
        exact ih s1 dp _ _ bad hfind1

theorem runBatchProfiles_all_found_ok (names : List String) :
    ∀ (s : ManagerState) (dp : Nat) (results : BatchResults)
      (trace : List Event),
    (∀ n ∈ names, (assocGet s.profiles n).isNone = false) →
    ∃ r s' tr, runBatchProfiles s names false dp results trace
      = (Except.ok r, s', tr) ∧ s'.profiles = s.profiles := by
  induction names with
  | nil =>
    intro s dp results trace _
    exact ⟨results, s, trace, rfl, rfl⟩
  | cons name rest ih =>
    intro s dp results trace hall
    have hg : (assocGet s.profiles name).isNone = false :=
      hall name (List.mem_cons_self name rest)
    rcases ho : open_profile s name with ⟨res, s1⟩
    have hpro : s1.profiles = s.profiles := by
      have h := open_profile_profiles s name
      rw [ho] at h
      exact h
    have hall1 : ∀ n ∈ rest, (assocGet s1.profiles n).isNone = false := by
      intro n hn
      rw [hpro]
      exact hall n (List.mem_cons_of_mem name hn)
    cases res with
    | ok hd =>
      obtain ⟨r, s', tr, heq, hpr⟩ :=
        ih s1 dp { results with successful := results.successful ++ [name] }
          (trace ++ [Event.sleepProfile dp]) hall1
      have hstep : runBatchProfiles s (name :: rest) false dp results trace
          = runBatchProfiles s1 rest false dp
            { results with successful := results.successful ++ [name] }
            (trace ++ [Event.sleepProfile dp]) := by
        simp [runBatchProfiles, hg, ho]
      exact ⟨r, s', tr, by rw [hstep]; exact heq, by rw [hpr, hpro]⟩
    | error e =>
      obtain ⟨r, s', tr, heq, hpr⟩ :=
        ih s1 dp
          { results with failed := results.failed ++ [(name, errorMessage e)] }
          trace hall1
      have hstep : runBatchProfiles s (name :: rest) false dp results trace
          = runBatchProfiles s1 rest false dp
            { results with failed := results.failed ++ [(name, errorMessage e)] }
            trace := by
        simp [runBatchProfiles, hg, ho]
      exact ⟨r, s', tr, by rw [hstep]; exact heq, by rw [hpr, hpro]⟩

theorem runBatches_abort (batches : List (List String)) :
    ∀ (s : ManagerState) (dp db : Nat) (results : BatchResults)
      (trace : List Event) (bad : String),
    batches.flatten.find? (fun n => (assocGet s.profiles n).isNone) = some bad →
    (runBatches s batches false dp db results trace).1
      = Except.error (OpenError.profileNotFound bad) := by
  induction batches with
  | nil =>
    intro s dp db results trace bad hfind
    simp at hfind
  | cons batch rest ih =>
    intro s dp db results trace bad hfind
    rw [List.flatten_cons,
      find?_append_first (fun n => (assocGet s.profiles n).isNone)] at hfind
    cases hfb : batch.find? (fun n => (assocGet s.profiles n).isNone) with
    | some b =>
      rw [hfb] at hfind
      simp only at hfind
      injection hfind with hb
      subst hb
      rcases hr : runBatchProfiles s batch false dp results trace
        with ⟨res, s1, tr1⟩
      have herr := runBatchProfiles_abort batch s dp results trace b hfb
      rw [hr] at herr
      simp only at herr
      subst herr
      simp [runBatches, hr]
    | none =>
      rw [hfb] at hfind
      simp only at hfind
      have hall : ∀ n ∈ batch, (assocGet s.profiles n).isNone = false := by
        intro n hn
        have := List.find?_eq_none.mp hfb n hn
        cases hq : (assocGet s.profiles n).isNone
        · rfl
        · exact absurd hq this
      obtain ⟨r1, s1, tr1, heq1, hpr1⟩ :=
        runBatchProfiles_all_found_ok batch s dp results trace hall
      have hfind1 :
          rest.flatten.find? (fun n => (assocGet s1.profiles n).isNone)
            = some bad := by
        rw [hpr1]
        exact hfind
      cases rest with
      | nil => simp at hfind1
      | cons b bs =>
        have hrec := ih s1 dp db r1 (tr1 ++ [Event.sleepBatch db]) bad hfind1
        simp only [runBatches, heq1]
        exact hrec

theorem open_multiple_go_abort (names : List String) :
    ∀ (s : ManagerState) (d : Nat) (drivers : List (String × Nat))
      (trace : List Event) (bad : String),
    names.find? (fun n => (assocGet s.profiles n).isNone) = some bad →
    (open_multiple_go s names d false drivers trace).1
      = Except.error (OpenError.profileNotFound bad) := by
  induction names with
  | nil =>
    intro s d drivers trace bad hfind
    simp at hfind
  | cons name rest ih =>
    intro s d drivers trace bad hfind
    by_cases hg : (assocGet s.profiles name).isNone = true
    · rw [@List.find?_cons_of_pos String
        (fun n => (assocGet s.profiles n).isNone) name rest hg] at hfind
      cases hfind
      simp [open_multiple_go, hg]
    · rw [@List.find?_cons_of_neg String
        (fun n => (assocGet s.profiles n).isNone) name rest hg] at hfind
      rw [Bool.not_eq_true] at hg
      rcases ho : open_profile s name with ⟨res, s1⟩
      have hpro : s1.profiles = s.profiles := by
        have h := open_profile_profiles s name
        rw [ho] at h
        exact h
      have hfind1 :
          rest.find? (fun n => (assocGet s1.profiles n).isNone) = some bad := by
        rw [hpro]
        exact hfind
      cases res with
      | ok hd =>
        have hstep : open_multiple_go s (name :: rest) d false drivers trace
            = open_multiple_go s1 rest d false (assocSet drivers name hd)
              (trace ++ [Event.sleepProfile d]) := by
          simp [open_multiple_go, hg, ho]
        rw [hstep]
        exact ih s1 d _ _ bad hfind1
      | error e =>
        have hstep : open_multiple_go s (name :: rest) d false drivers trace
            = open_multiple_go s1 rest d false drivers trace := by
          simp [open_multiple_go, hg, ho]
        rw [hstep]
        exact ih s1 d _ _ bad hfind1

/-- On the abort path the state returned is exactly the state reached by
running the registered prefix alone: nothing done for the profiles
already opened is rolled back. -/
theorem open_multiple_go_state_on_abort (good : List String) :
    ∀ (s : ManagerState) (d : Nat) (drivers : List (String × Nat))
      (trace : List Event) (bad : String) (rest : List String),
    (∀ g ∈ good, (assocGet s.profiles g).isNone = false) →
    assocGet s.profiles bad = none →
    open_multiple_go s (good ++ bad :: rest) d false drivers trace
      = (Except.error (OpenError.profileNotFound bad),
         (open_multiple_go s good d false drivers trace).2.1,
         (open_multiple_go s good d false drivers trace).2.2) := by
  induction good with
  | nil =>
    intro s d drivers trace bad rest _ hbad
    simp [open_multiple_go, hbad]
  | cons g gs ih =>
    intro s d drivers trace bad rest hgood hbad
    have hg : (assocGet s.profiles g).isNone = false :=
      hgood g (List.mem_cons_self g gs)
    rcases ho : open_profile s g with ⟨res, s1⟩
    have hpro : s1.profiles = s.profiles := by
      have h := open_profile_profiles s g
      rw [ho] at h
      exact h
    have hgood1 : ∀ x ∈ gs, (assocGet s1.profiles x).isNone = false := by
      intro x hx
      rw [hpro]
      exact hgood x (List.mem_cons_of_mem g hx)
    have hbad1 : assocGet s1.profiles bad = none := by
      rw [hpro]
      exact hbad
    cases res with
    | ok hd =>
      have hstepL :
          open_multiple_go s ((g :: gs) ++ bad :: rest) d false drivers trace
            = open_multiple_go s1 (gs ++ bad :: rest) d false
              (assocSet drivers g hd) (trace ++ [Event.sleepProfile d]) := by
        simp [open_multiple_go, hg, ho]
      have hstepR : open_multiple_go s (g :: gs) d false drivers trace
          = open_multiple_go s1 gs d false (assocSet drivers g hd)
            (trace ++ [Event.sleepProfile d]) := by
        simp [open_multiple_go, hg, ho]
      rw [hstepL, hstepR]
      exact ih s1 d _ _ bad rest hgood1 hbad1
    | error e =>
      have hstepL :
          open_multiple_go s ((g :: gs) ++ bad :: rest) d false drivers trace
            = open_multiple_go s1 (gs ++ bad :: rest) d false drivers trace := by
        simp [open_multiple_go, hg, ho]
      have hstepR : open_multiple_go s (g :: gs) d false drivers trace
          = open_multiple_go s1 gs d false drivers trace := by
        simp [open_multiple_go, hg, ho]
      rw [hstepL, hstepR]
      exact ih s1 d _ _ bad rest hgood1 hbad1

/-! Trace shape of open_multiple_profiles: one per-profile sleep per
successful open, nothing else. -/

theorem open_multiple_go_trace (names : List String) :
    ∀ (s : ManagerState) (d : Nat) (sm : Bool)
      (drivers : List (String × Nat)) (trace : List Event)
      (res : List (String × Nat)) (s' : ManagerState) (tr : List Event),
    names.Nodup →
    (∀ n ∈ names, assocGet drivers n = none) →
    open_multiple_go s names d sm drivers trace = (Except.ok res, s', tr) →
    tr.length + drivers.length = trace.length + res.length ∧
    (∀ e ∈ tr, e ∈ trace ∨ e = Event.sleepProfile d) := by
  induction names with
  | nil =>
    intro s d sm drivers trace res s' tr _ _ h
    simp only [open_multiple_go, Prod.mk.injEq] at h
    obtain ⟨h1, _, h3⟩ := h
    cases h1
    rw [h3]
    exact ⟨rfl, fun e he => Or.inl he⟩
  | cons name rest ih =>
    intro s d sm drivers trace res s' tr hnd hfresh h
    have hndr : rest.Nodup := (List.nodup_cons.mp hnd).2
    have hnmem : name ∉ rest := (List.nodup_cons.mp hnd).1
    by_cases hg : (assocGet s.profiles name).isNone = true
    · cases sm with
      | true =>
        have hstep : open_multiple_go s (name :: rest) d true drivers trace
            = open_multiple_go s rest d true drivers trace := by
          simp [open_multiple_go, hg]
        rw [hstep] at h
        exact ih s d true drivers trace res s' tr hndr
          (fun n hn => hfresh n (List.mem_cons_of_mem name hn)) h
      | false =>
        have hstep : open_multiple_go s (name :: rest) d false drivers trace
            = (Except.error (OpenError.profileNotFound name), s, trace) := by
          simp [open_multiple_go, hg]
        rw [hstep] at h
        simp at h
    · rw [Bool.not_eq_true] at hg
      rcases ho : open_profile s name with ⟨r0, s1⟩
      cases r0 with
      | ok hd =>
        have hstep : open_multiple_go s (name :: rest) d sm drivers trace
            = open_multiple_go s1 rest d sm (assocSet drivers name hd)
              (trace ++ [Event.sleepProfile d]) := by
          simp [open_multiple_go, hg, ho]
        rw [hstep] at h
        have hfresh1 : ∀ n ∈ rest, assocGet (assocSet drivers name hd) n = none := by
          intro n hn
          have hne : n ≠ name := fun hc => hnmem (hc ▸ hn)
          rw [assocGet_assocSet_ne drivers name n hd hne]
          exact hfresh n (List.mem_cons_of_mem name hn)
        obtain ⟨hlen, hmem⟩ :=
          ih s1 d sm (assocSet drivers name hd)
            (trace ++ [Event.sleepProfile d]) res s' tr hndr hfresh1 h
        have hdl : (assocSet drivers name hd).length = drivers.length + 1 :=
          assocSet_absent_length drivers name hd
            (hfresh name (List.mem_cons_self name rest))
        constructor
        · rw [hdl] at hlen
          simp only [List.length_append, List.length_cons, List.length_nil]
            at hlen
          omega
        · intro e he
          rcases hmem e he with hin | heq
          · rcases List.mem_append.mp hin with hin2 | hin2
            · exact Or.inl hin2
            · right
              simpa using hin2
          · exact Or.inr heq
      | error e0 =>
        have hstep : open_multiple_go s (name :: rest) d sm drivers trace
            = open_multiple_go s1 rest d sm drivers trace := by
          simp [open_multiple_go, hg, ho]
        rw [hstep] at h
        exact ih s1 d sm drivers trace res s' tr hndr
          (fun n hn => hfresh n (List.mem_cons_of_mem name hn)) h

/-! Counting for close_all_profiles: the count returned is exactly the
number of successful quits, independent of the session bookkeeping. -/

theorem close_all_go_count (items : List (String × Nat)) :
    ∀ (s : ManagerState) (count : Nat),
    (close_all_go s items count).1
      = count + (padOutcomes s.closeOutcomes items.length).count true := by
  induction items with
  | nil =>
    intro s count
    simp [close_all_go, padOutcomes]
  | cons p rest ih =>
    intro s count
    rcases p with ⟨name, hd⟩
    cases ho : s.closeOutcomes with
    | nil =>
      simp [close_all_go, ho, takeOutcome, padOutcomes, ih, List.count_cons]
      omega
    | cons b bs =>
      cases b with
      | true =>
        simp [close_all_go, ho, takeOutcome, padOutcomes, ih, List.count_cons]
        omega
      | false =>
        simp [close_all_go, ho, takeOutcome, padOutcomes, ih, List.count_cons]

/-! History bookkeeping along a client loop of open_profile calls. -/

theorem runOpensTrace_history (names : List String) :
    ∀ (s : ManagerState) (w : String),
    ((((runOpensTrace s names).2.filter (fun p => p.1 == w)) = []) →
        assocGet (runOpensTrace s names).1.history w = assocGet s.history w) ∧
    (∀ q, ((runOpensTrace s names).2.filter (fun p => p.1 == w)).getLast?
        = some q →
      assocGet (runOpensTrace s names).1.history w
        = some { lastOpened := q.2,
                 openCount := countD (assocGet s.history w) +
                   ((runOpensTrace s names).2.filter
                     (fun p => p.1 == w)).length }) := by
  induction names with
  | nil =>
    intro s w
    refine ⟨fun _ => rfl, fun q hq => ?_⟩
    simp [runOpensTrace] at hq
  | cons n rest ih =>
    intro s w
    rcases ho : open_profile s n with ⟨r0, s1⟩
    cases r0 with
    | error e0 =>
      have hhist : s1.history = s.history := by
        have h := open_profile_error_state s n e0 s1 ho
        exact h.1
      have hstep : runOpensTrace s (n :: rest) = runOpensTrace s1 rest := by
        simp [runOpensTrace, ho]
      rw [hstep]
      constructor
      · intro hnil
        rw [(ih s1 w).1 hnil, hhist]
      · intro q hq
        rw [(ih s1 w).2 q hq, hhist]
    | ok hd =>
      have hstep : runOpensTrace s (n :: rest)
          = ((runOpensTrace s1 rest).1,
             (n, s.clock) :: (runOpensTrace s1 rest).2) := by
        simp [runOpensTrace, ho]
      rw [hstep]
      by_cases hw : n = w
      · subst hw
        have hself := open_profile_ok_history_self s n hd s1 ho
        simp only [List.filter_cons, beq_self_eq_true, if_true]
        constructor
        · intro hnil
          simp at hnil
        · intro q hq
          cases htw : (runOpensTrace s1 rest).2.filter (fun p => p.1 == n) with
          | nil =>
            rw [htw] at hq
            simp at hq
            have := (ih s1 n).1 htw
            rw [this, hself]
            subst hq
            simp
          | cons q0 qs =>
            rw [htw] at hq
            rw [List.getLast?_cons_cons] at hq
            have := (ih s1 n).2 q ((htw ▸ hq : ((runOpensTrace s1 rest).2.filter
              (fun p => p.1 == n)).getLast? = some q))
            rw [this, hself]
            simp only [countD, htw]
            simp [List.length_cons]
            omega
      · have hother : assocGet s1.history w = assocGet s.history w :=
          open_profile_ok_history_other s n hd s1 w ho (fun hc => hw hc.symm)
        have hbeq : (n == w) = false := by
          simp [hw]
        simp only [List.filter_cons, hbeq, Bool.false_eq_true, if_false]
        constructor
        · intro hnil
          rw [(ih s1 w).1 hnil, hother]
        · intro q hq
          rw [(ih s1 w).2 q hq, hother]

/-- Lookup after erasing a different key. -/
theorem assocGet_assocErase_ne {α : Type} (m : List (String × α))
    (k q : String) (h : q ≠ k) :
    assocGet (assocErase m k) q = assocGet m q := by
  induction m with
  | nil => simp [assocErase]
  | cons p rest ih =>
    by_cases hk : p.1 = k
    · have hq : ¬ p.1 = q := by
        rw [hk]
        exact fun hc => h hc.symm
      simp [assocErase, assocGet, hk, hq, ih, Ne.symm h]
    · by_cases hq : p.1 = q <;>
        simp [assocErase, assocGet, hk, hq, h, ih, Ne.symm h]

/-- Case split for Nat.max, phrased on the function used by
nextProfileNumber. -/
theorem nat_max_cases (x y : Nat) : Nat.max x y = x ∨ Nat.max x y = y := by
  unfold Nat.max
  rcases le_total x y with h | h
  · exact Or.inr (sup_eq_right.mpr h)
  · exact Or.inl (sup_eq_left.mpr h)

/-- Left bound for Nat.max. -/
theorem nat_le_max_left (x y : Nat) : x ≤ Nat.max x y := by
  unfold Nat.max
  exact le_sup_left

/-- Right bound for Nat.max. -/
theorem nat_le_max_right (x y : Nat) : y ≤ Nat.max x y := by
  unfold Nat.max
  exact le_sup_right

/-- The fold in nextProfileNumber computes an element of the list. -/
theorem foldl_max_mem (xs : List Nat) :
    ∀ x : Nat, xs.foldl Nat.max x ∈ x :: xs := by
  induction xs with
  | nil =>
    intro x
    simp
  | cons y ys ih =>
    intro x
    simp only [List.foldl_cons]
    rcases List.mem_cons.mp (ih (Nat.max x y)) with h1 | h1
    · rcases nat_max_cases x y with hc | hc
      · rw [h1, hc]
        exact List.mem_cons_self x (y :: ys)
      · rw [h1, hc]
        exact List.mem_cons_of_mem x (List.mem_cons_self y ys)
    · exact List.mem_cons_of_mem x (List.mem_cons_of_mem y h1)

/-- The fold in nextProfileNumber bounds every element of the list. -/
theorem foldl_max_le (xs : List Nat) :
    ∀ x : Nat, ∀ j ∈ x :: xs, j ≤ xs.foldl Nat.max x := by
  induction xs with
  | nil =>
    intro x j hj
    simp only [List.foldl_nil]
    simp at hj
    omega
  | cons y ys ih =>
    intro x j hj
    simp only [List.foldl_cons]
    have hmax : Nat.max x y ≤ ys.foldl Nat.max (Nat.max x y) :=
      ih (Nat.max x y) (Nat.max x y) (List.mem_cons_self _ ys)
    rcases List.mem_cons.mp hj with h1 | h1
    · subst h1
      exact le_trans (nat_le_max_left j y) hmax
    · rcases List.mem_cons.mp h1 with h2 | h2
      · subst h2
        exact le_trans (nat_le_max_right x j) hmax
      · exact ih (Nat.max x y) j (List.mem_cons_of_mem _ h2)

/-- Lookup of a key appended at the end of a map it was absent from. -/
theorem assocGet_append_single_self {α : Type} (m : List (String × α))
    (k : String) (v : α) (h : assocGet m k = none) :
    assocGet (m ++ [(k, v)]) k = some v := by
  rw [← assocSet_absent m k v h]
  exact assocGet_assocSet_self m k v

/-- Successful add_profile appends one fresh entry and ticks the clock,
leaving everything else alone. -/
theorem add_profile_absent (s : ManagerState) (name : String)
    (path lang : Option String) (h : assocGet s.profiles name = none) :
    (add_profile s name path lang).1 = true ∧
    ∃ d, (add_profile s name path lang).2
      = { s with
          profiles := s.profiles ++ [(name, d)],
          clock := s.clock + 1 } := by
  refine ⟨by simp [add_profile, h], ?_⟩
  refine
    ⟨{ path :=
         match path with
         | some p => p
         | none => "Profile " ++ Nat.repr (nextProfileNumber s.profiles),
       preferredLanguage := lang, createdAt := s.clock }, ?_⟩
  simp only [add_profile, h, Option.isSome_none, Bool.false_eq_true, if_false]
  rw [assocSet_absent s.profiles name _ h]

/-! Claim theorems. -/

/-- C1 counterexample: for seven registered names with batch_size 3, no
skips and every launch succeeding, the run performs 7 intra-item delays
(one after every successful open, the last name of each chunk included),
not the 4 the claim predicts. -/
theorem batch_profile_delay_claim_counterexample :
    (open_profiles_in_batches stSeven
      [ "p1", "p2", "p3", "p4", "p5", "p6", "p7"]
      3 2 30 true).2.2.countP isProfileSleep = 7 ∧
    ¬ ((open_profiles_in_batches stSeven
      [ "p1", "p2", "p3", "p4", "p5", "p6", "p7"]
      3 2 30 true).2.2.countP isProfileSleep = 4) := by
  exact ⟨by decide, by decide⟩

/-- C1 (amended): in open_profiles_in_batches the scheduler waits
profile_delay after every successful open, including after the last
processed name of a chunk, and a failed open incurs no inter-profile
delay; hence in any completed run the number of intra-item delays equals
the number of successful opens — 7 for seven registered names with
batch_size 3, no skips and no failures — and a failing first name of a
two-name batch yields a single delay, after the succeeding second name
only. -/
theorem batch_profile_delay_per_success (s : ManagerState)
    (names : List String) (bs dp db : Nat) (sm : Bool) (r : BatchResults)
    (s' : ManagerState) (tr : List Event)
    (h : open_profiles_in_batches s names bs dp db sm = (Except.ok r, s', tr)) :
    tr.countP isProfileSleep = r.successful.length ∧
    (open_profiles_in_batches stABFirstFails [ "a", "b"] 3 2 30 true).2.2
      = [Event.sleepProfile 2] ∧
    (open_profiles_in_batches stABFirstFails [ "a", "b"] 3 2 30 true).1
      = Except.ok
          { successful := [ "b"],
            failed := [( "a", errorMessage (OpenError.launchFailed "a"))],
            skipped := [] } := by
  refine ⟨?_, by decide, by decide⟩
  by_cases hbs : bs = 0
  · rw [open_profiles_in_batches, if_pos hbs] at h
    simp at h
  · rw [open_profiles_in_batches, if_neg hbs] at h
    have hc := runBatches_countP (chunkList names bs) s sm dp db
      { successful := [], failed := [], skipped := [] } [] r s' tr h
    simpa using hc

theorem batch_profile_delay_per_success_witness :
    open_profiles_in_batches stAB [ "a", "b"] 3 2 30 true
      = (Except.ok { successful := [ "a", "b"], failed := [], skipped := [] },
         stABAfterBatch, [Event.sleepProfile 2, Event.sleepProfile 2]) ∧
    ([Event.sleepProfile 2, Event.sleepProfile 2] : List Event).countP
      isProfileSleep
      = ({ successful := [ "a", "b"], failed := [], skipped := [] }
          : BatchResults).successful.length :=
  ⟨by decide,
   (batch_profile_delay_per_success stAB [ "a", "b"] 3 2 30 true
     { successful := [ "a", "b"], failed := [], skipped := [] }
     stABAfterBatch [Event.sleepProfile 2, Event.sleepProfile 2]
     (by decide)).1⟩

/-- C2: open_profiles_in_batches partitions the input into consecutive
chunks of at most batch_size preserving order, with only the last chunk
possibly shorter; seven names with batch_size 3 give the batches
[p1,p2,p3],[p4,p5,p6],[p7] and exactly 2 inter-batch delays; an empty
input returns the empty result immediately with no delays. -/
theorem batch_partition_and_batch_delays (l : List String) (n : Nat)
    (hn : 0 < n) :
    (chunkList l n).flatten = l ∧
    (∀ c ∈ chunkList l n, c.length ≤ n) ∧
    (∀ i, i + 1 < (chunkList l n).length →
      ((chunkList l n).getD i []).length = n) ∧
    chunkList [ "p1", "p2", "p3", "p4", "p5", "p6", "p7"] 3
      = [[ "p1", "p2", "p3"], [ "p4", "p5", "p6"], [ "p7"]] ∧
    (open_profiles_in_batches stSeven
      [ "p1", "p2", "p3", "p4", "p5", "p6", "p7"]
      3 2 30 true).2.2.countP isBatchSleep = 2 ∧
    (∀ (s : ManagerState) (dp db : Nat) (sm : Bool),
      open_profiles_in_batches s [] n dp db sm
        = (Except.ok { successful := [], failed := [], skipped := [] }, s, [])) := by
  refine ⟨chunkList_flatten l n hn, chunkList_length_le l n,
    chunkList_getD_length l n hn, by decide, by decide, ?_⟩
  intro s dp db sm
  have hne : n ≠ 0 := Nat.pos_iff_ne_zero.mp hn
  simp [open_profiles_in_batches, hne, chunkList, chunkGo, runBatches]

theorem batch_partition_and_batch_delays_witness :
    0 < 3 ∧
    (chunkList [ "p1", "p2", "p3", "p4", "p5", "p6", "p7"] 3).flatten
      = [ "p1", "p2", "p3", "p4", "p5", "p6", "p7"] :=
  ⟨by decide,
   (batch_partition_and_batch_delays
     [ "p1", "p2", "p3", "p4", "p5", "p6", "p7"] 3 (by decide)).1⟩

/-- C3: with skip_missing false, both open_profiles_in_batches and
open_multiple_profiles abort at the first unregistered name of the input
with the ValueError naming that profile; the result value carries the
error only, so none of the results accumulated in the invocation are
returned. -/
theorem abort_on_missing_when_not_skipping (s : ManagerState)
    (names : List String) (bs dp db d : Nat) (bad : String) (hbs : 0 < bs)
    (hfind : names.find? (fun n => (assocGet s.profiles n).isNone)
      = some bad) :
    (open_profiles_in_batches s names bs dp db false).1
      = Except.error (OpenError.profileNotFound bad) ∧
    (open_multiple_profiles s names d false).1
      = Except.error (OpenError.profileNotFound bad) := by
  constructor
  · have hne : bs ≠ 0 := Nat.pos_iff_ne_zero.mp hbs
    rw [open_profiles_in_batches, if_neg hne]
    refine runBatches_abort (chunkList names bs) s dp db
      { successful := [], failed := [], skipped := [] } [] bad ?_
    rw [chunkList_flatten names bs hbs]
    exact hfind
  · exact open_multiple_go_abort names s d [] [] bad hfind

theorem abort_on_missing_when_not_skipping_witness :
    ([ "a", "ghost"].find?
      (fun n => (assocGet stAB.profiles n).isNone) = some "ghost") ∧
    (open_profiles_in_batches stAB [ "a", "ghost"] 3 2 30 false).1
      = Except.error (OpenError.profileNotFound "ghost") :=
  ⟨by decide,
   (abort_on_missing_when_not_skipping stAB [ "a", "ghost"] 3 2 30 2 "ghost"
     (by decide) (by decide)).1⟩

/-- C4: with skip_missing true every unregistered input name is appended
to skipped, in input order, and processing continues; skips incur no
delay.  For the input a, ghost, b over a registry holding a and b with
both launches succeeding, the run returns successful = [a, b],
skipped = [ghost], failed = [], and its trace holds exactly the two
per-profile delays of the two successful opens. -/
theorem skip_missing_collects_skipped (s : ManagerState)
    (names : List String) (bs dp db : Nat) (r : BatchResults)
    (s' : ManagerState) (tr : List Event)
    (h : open_profiles_in_batches s names bs dp db true
      = (Except.ok r, s', tr)) :
    r.skipped = names.filter (fun n => (assocGet s.profiles n).isNone) ∧
    (open_profiles_in_batches stAB [ "a", "ghost", "b"] 5 2 30 true).1
      = Except.ok
          { successful := [ "a", "b"], failed := [],
            skipped := [ "ghost"] } ∧
    (open_profiles_in_batches stAB [ "a", "ghost", "b"] 5 2 30 true).2.2
      = [Event.sleepProfile 2, Event.sleepProfile 2] := by
  refine ⟨?_, by decide, by decide⟩
  by_cases hbs : bs = 0
  · rw [open_profiles_in_batches, if_pos hbs] at h
    simp at h
  · rw [open_profiles_in_batches, if_neg hbs] at h
    obtain ⟨r1, s1, tr1, heq1, hsk1, _⟩ :=
      runBatches_true_total (chunkList names bs) s dp db
        { successful := [], failed := [], skipped := [] } []
    rw [heq1] at h
    simp only [Prod.mk.injEq] at h
    obtain ⟨h1, _, _⟩ := h
    injection h1 with h1
    rw [← h1, hsk1,
      chunkList_flatten names bs (Nat.pos_of_ne_zero hbs)]
    simp

theorem skip_missing_collects_skipped_witness :
    open_profiles_in_batches stAB [ "a", "ghost", "b"] 5 2 30 true
      = (Except.ok
           { successful := [ "a", "b"], failed := [],
             skipped := [ "ghost"] },
         stABAfterBatch, [Event.sleepProfile 2, Event.sleepProfile 2]) ∧
    ({ successful := [ "a", "b"], failed := [], skipped := [ "ghost"] }
        : BatchResults).skipped
      = [ "a", "ghost", "b"].filter
          (fun n => (assocGet stAB.profiles n).isNone) :=
  ⟨by decide,
   (skip_missing_collects_skipped stAB [ "a", "ghost", "b"] 5 2 30
     { successful := [ "a", "b"], failed := [], skipped := [ "ghost"] }
     stABAfterBatch [Event.sleepProfile 2, Event.sleepProfile 2]
     (by decide)).1⟩

/-- C5: along any client loop of open_profile calls, a profile with no
prior history ends with open_count equal to the number of its successful
opens in the run and last_opened equal to the clock value of the most
recent of them; a run with no successful open of the profile leaves it
without a history entry, and a failed open never updates the history. -/
theorem history_counts_successful_opens (s : ManagerState)
    (names : List String) (w : String)
    (h0 : assocGet s.history w = none) :
    ((((runOpensTrace s names).2.filter (fun p => p.1 == w)) = []) →
        assocGet (runOpensTrace s names).1.history w = none) ∧
    (∀ q, ((runOpensTrace s names).2.filter (fun p => p.1 == w)).getLast?
        = some q →
      assocGet (runOpensTrace s names).1.history w
        = some { lastOpened := q.2,
                 openCount := ((runOpensTrace s names).2.filter
                   (fun p => p.1 == w)).length }) ∧
    (∀ (s2 : ManagerState) (n : String) (e : OpenError) (s3 : ManagerState),
        open_profile s2 n = (Except.error e, s3) → s3.history = s2.history) := by
  refine ⟨?_, ?_, ?_⟩
  · intro hnil
    rw [(runOpensTrace_history names s w).1 hnil, h0]
  · intro q hq
    have h := (runOpensTrace_history names s w).2 q hq
    rw [h, h0]
    simp [countD]
  · intro s2 n e s3 h
    exact (open_profile_error_state s2 n e s3 h).1

theorem history_counts_successful_opens_witness :
    assocGet stWV.history "W" = none ∧
    assocGet (runOpensTrace stWV [ "W", "V", "W"]).1.history "W"
      = some { lastOpened := 2, openCount := 2 } :=
  ⟨by decide,
   by
     have h := (history_counts_successful_opens stWV [ "W", "V", "W"] "W"
       (by decide)).2.1 ( "W", 2) (by decide)
     exact h⟩

/-- C6 counterexample: opening the two registered names a and b with
open_multiple_profiles, both succeeding, performs two inter-profile
delays — one after each successful open, the final item included — not
the single delay the claim predicts when the final item is excluded. -/
theorem open_multiple_delay_claim_counterexample :
    (open_multiple_profiles stAB [ "a", "b"] 2 true).2.2
      = [Event.sleepProfile 2, Event.sleepProfile 2] ∧
    ¬ ((open_multiple_profiles stAB [ "a", "b"] 2 true).2.2.length = 1) := by
  exact ⟨by decide, by decide⟩

/-- C6 (amended): open_multiple_profiles waits delay_between after every
successful open, the final item included, and not after a failed open;
for duplicate-free input the completed trace is exactly one sleep per
entry of the returned driver mapping, and a two-name run whose first
launch fails sleeps only once, after the second name succeeds. -/
theorem open_multiple_delay_per_success (s : ManagerState)
    (names : List String) (d : Nat) (sm : Bool)
    (res : List (String × Nat)) (s' : ManagerState) (tr : List Event)
    (hnd : names.Nodup)
    (h : open_multiple_profiles s names d sm = (Except.ok res, s', tr)) :
    tr = List.replicate res.length (Event.sleepProfile d) ∧
    (open_multiple_profiles stABFirstFails [ "a", "b"] 2 true).2.2
      = [Event.sleepProfile 2] := by
  refine ⟨?_, by decide⟩
  obtain ⟨hlen, hmem⟩ := open_multiple_go_trace names s d sm [] [] res s' tr
    hnd (fun n _ => rfl) h
  refine List.eq_replicate_iff.mpr ⟨by simpa using hlen, ?_⟩
  intro e he
  rcases hmem e he with hin | heq
  · simp at hin
  · exact heq

theorem open_multiple_delay_per_success_witness :
    ([ "a", "b"] : List String).Nodup ∧
    open_multiple_profiles stAB [ "a", "b"] 2 true
      = (Except.ok [( "a", 0), ( "b", 1)], stABAfterBatch,
         [Event.sleepProfile 2, Event.sleepProfile 2]) ∧
    ([Event.sleepProfile 2, Event.sleepProfile 2] : List Event)
      = List.replicate ([( "a", 0), ( "b", 1)]
          : List (String × Nat)).length (Event.sleepProfile 2) :=
  ⟨by decide, by decide,
   (open_multiple_delay_per_success stAB [ "a", "b"] 2 true
     [( "a", 0), ( "b", 1)] stABAfterBatch
     [Event.sleepProfile 2, Event.sleepProfile 2]
     (by decide) (by decide)).1⟩

/-- C7: close_all_profiles is a total function of the state (the model
of: it never raises — a failed quit is caught and logged); the returned
count is exactly the number of successful quits; and in the concrete
three-session state whose second quit fails it returns 2, removes the
two closed sessions and leaves the second one still marked active. -/
theorem close_all_best_effort :
    (∀ s : ManagerState, (close_all_profiles s).1
      = (padOutcomes s.closeOutcomes s.activeDrivers.length).count true) ∧
    close_all_profiles stThreeActive
      = (2, { stThreeActive with
              closeOutcomes := [],
              activeDrivers := [( "s2", 1)] }) := by
  constructor
  · intro s
    have h := close_all_go_count s.activeDrivers s 0
    simpa [close_all_profiles] using h
  · decide

/-- C8: for a name not yet registered, add_profile then remove_profile
restores the registry to its pre-add state; remove_profile reports
success and deletes any history entry for the name while leaving other
history entries alone; and remove_profile on the unregistered name
fails, returning False and changing nothing. -/
theorem add_remove_round_trip (s : ManagerState) (name : String)
    (path lang : Option String) (h : assocGet s.profiles name = none) :
    (add_profile s name path lang).1 = true ∧
    (remove_profile (add_profile s name path lang).2 name).1 = true ∧
    (remove_profile (add_profile s name path lang).2 name).2.profiles
      = s.profiles ∧
    assocGet
      (remove_profile (add_profile s name path lang).2 name).2.history name
      = none ∧
    (∀ q, q ≠ name →
      assocGet
        (remove_profile (add_profile s name path lang).2 name).2.history q
        = assocGet s.history q) ∧
    remove_profile s name = (false, s) := by
  obtain ⟨hadd, d, hstate⟩ := add_profile_absent s name path lang h
  have hget : assocGet (s.profiles ++ [(name, d)]) name = some d :=
    assocGet_append_single_self s.profiles name d h
  have herase : assocErase (s.profiles ++ [(name, d)]) name = s.profiles := by
    rw [assocErase_append, assocErase_absent s.profiles name h]
    simp [assocErase]
  rw [hstate]
  by_cases hh : (assocGet s.history name).isSome = true
  · refine ⟨hadd, ?_, ?_, ?_, ?_, ?_⟩
    · simp [remove_profile, hget]
    · simp [remove_profile, hget, hh, herase]
    · simp only [remove_profile, hget, Option.isNone_some,
        Bool.false_eq_true, if_false, hh, if_true]
      exact assocGet_assocErase_self s.history name
    · intro q hq
      simp only [remove_profile, hget, Option.isNone_some,
        Bool.false_eq_true, if_false, hh, if_true]
      exact assocGet_assocErase_ne s.history name q hq
    · simp [remove_profile, h]
  · have hnone : assocGet s.history name = none := by
      cases hg : assocGet s.history name with
      | none => rfl
      | some v =>
        rw [hg] at hh
        simp at hh
    refine ⟨hadd, ?_, ?_, ?_, ?_, ?_⟩
    · simp [remove_profile, hget]
    · simp [remove_profile, hget, hh, herase]
    · simp only [remove_profile, hget, Option.isNone_some,
        Bool.false_eq_true, if_false, hh]
      simp [hnone]
    · intro q hq
      simp only [remove_profile, hget, Option.isNone_some,
        Bool.false_eq_true, if_false, hh]
    · simp [remove_profile, h]

theorem add_remove_round_trip_witness :
    assocGet stAB.profiles "c" = none ∧
    (remove_profile (add_profile stAB "c" none none).2 "c").2.profiles
      = stAB.profiles :=
  ⟨by decide,
   (add_remove_round_trip stAB "c" none none (by decide)).2.2.1⟩

/-- C9: with no explicit path, add_profile derives Profile n where n is
one more than the greatest number parsed from the stored paths (max plus
one, gaps ignored), defaulting to 1 when no stored path parses; three
adds into an empty registry produce Profile 1, Profile 2, Profile 3 in
order, and a registry holding Profile 2 and Profile 5 yields Profile 6
next. -/
theorem auto_path_next_sequential (m : List (String × ProfileData)) :
    (m.filterMap (fun p => pathNumber p.2.path) = [] →
      nextProfileNumber m = 1) ∧
    (∀ x xs, m.filterMap (fun p => pathNumber p.2.path) = x :: xs →
      ∃ k, k ∈ x :: xs ∧ (∀ j ∈ x :: xs, j ≤ k) ∧
        nextProfileNumber m = k + 1) ∧
    ((add_profile
        (add_profile
          (add_profile stEmpty "A" none none).2 "B" none none).2
        "C" none none).2.profiles.map (fun p => p.2.path)
      = [ "Profile 1", "Profile 2", "Profile 3"]) ∧
    ((assocGet (add_profile stGapPaths "z" none none).2.profiles
        "z").map (fun p => p.path) = some "Profile 6") := by
  refine ⟨?_, ?_, by decide, by decide⟩
  · intro hnil
    simp [nextProfileNumber, hnil]
  · intro x xs hx
    refine ⟨xs.foldl Nat.max x, foldl_max_mem xs x, foldl_max_le xs x, ?_⟩
    simp [nextProfileNumber, hx]

theorem auto_path_next_sequential_witness :
    (stGapPaths.profiles.filterMap (fun p => pathNumber p.2.path)
      = [2, 5]) ∧
    (∃ k, k ∈ [2, 5] ∧ (∀ j ∈ ([2, 5] : List Nat), j ≤ k) ∧
      nextProfileNumber stGapPaths.profiles = k + 1) :=
  ⟨by decide,
   (auto_path_next_sequential stGapPaths.profiles).2.1 2 [5] (by decide)⟩

/-- C10: aborting on an unregistered name with skip_missing false keeps
every state change already made: the state returned on the abort path of
open_multiple_profiles is exactly the state after running the registered
prefix, and in the concrete aborted runs of both operations the
already-opened profile keeps its active-session entry (no close happens)
and its history increment; only the result value is the error. -/
theorem abort_retains_prior_open_state (s : ManagerState) (d : Nat)
    (good rest : List String) (bad : String)
    (hgood : ∀ g ∈ good, (assocGet s.profiles g).isNone = false)
    (hbad : assocGet s.profiles bad = none) :
    open_multiple_profiles s (good ++ bad :: rest) d false
      = (Except.error (OpenError.profileNotFound bad),
         (open_multiple_profiles s good d false).2.1,
         (open_multiple_profiles s good d false).2.2) ∧
    (assocGet (open_profiles_in_batches stAB
        [ "a", "ghost"] 5 2 30 false).2.1.activeDrivers "a" = some 0) ∧
    (assocGet (open_profiles_in_batches stAB
        [ "a", "ghost"] 5 2 30 false).2.1.history "a"
      = some { lastOpened := 0, openCount := 1 }) ∧
    ((open_profiles_in_batches stAB [ "a", "ghost"] 5 2 30 false).1
      = Except.error (OpenError.profileNotFound "ghost")) ∧
    (assocGet (open_multiple_profiles stAB
        [ "a", "ghost"] 2 false).2.1.activeDrivers "a" = some 0) ∧
    (assocGet (open_multiple_profiles stAB
        [ "a", "ghost"] 2 false).2.1.history "a"
      = some { lastOpened := 0, openCount := 1 }) ∧
    ((open_multiple_profiles stAB [ "a", "ghost"] 2 false).1
      = Except.error (OpenError.profileNotFound "ghost")) := by
  refine ⟨?_, by decide, by decide, by decide, by decide, by decide, by decide⟩
  exact open_multiple_go_state_on_abort good s d [] [] bad rest hgood hbad

theorem abort_retains_prior_open_state_witness :
    (∀ g ∈ ([ "a"] : List String),
      (assocGet stAB.profiles g).isNone = false) ∧
    open_multiple_profiles stAB ([ "a"] ++ "ghost" :: []) 2 false
      = (Except.error (OpenError.profileNotFound "ghost"),
         (open_multiple_profiles stAB [ "a"] 2 false).2.1,
         (open_multiple_profiles stAB [ "a"] 2 false).2.2) :=
  ⟨by decide,
   (abort_retains_prior_open_state stAB 2 [ "a"] [] "ghost"
     (by decide) (by decide)).1⟩

end EdgeProfile
